import Mathlib

/-!
Shallow embedding of `pypi2pkgbuild.py` (a PyPI-to-Arch-Linux PKGBUILD
converter) for checking its specification.

Python strings are modelled as lists of characters (`Str`), so that every
string operation of the source reduces inside the kernel.  Effectful
operations (index fetches over the network, local package-database queries,
disposable trial installations, license-file downloads) are modelled by pure
oracle functions bundled in an environment `Env`; a `World` state counts the
performed operations and holds the process-wide `lru_cache` memoization
caches, so that claims about memoization and repeated side effects are
statable.  The PKGBUILD text itself is out of the claims' scope (the spec
treats the rendered recipe as a fixed template); manifests are therefore
modelled structurally, with the template's `conflicts=()` header line as a
`conflicts` field that `MetaPackage.__init__`'s single first-occurrence text
replacement overwrites.
-/

namespace P2P

/-- Python strings, modelled as lists of characters. -/
abbrev Str := List Char

/-- Shorthand turning a Lean string literal into the model's string type. -/
def str (s : String) : Str := s.toList

/-- Single-character Python `str.replace` (the source only replaces the
one-character patterns `-` and `'`). -/
def replaceChar (a : Char) (rep : Str) (s : Str) : Str :=
  s.flatMap (fun c => if c = a then rep else [c])

/-- Python `str.lower` as used on ASCII package names. -/
def strLower (s : Str) : Str := s.map Char.toLower

/-- Python `str.split(sep)` for a non-empty separator: split on every
non-overlapping occurrence, left to right, keeping empty pieces.  Structural
recursion on a length fuel (the input shrinks by at least one character per
step, so the fuel of `strSplitOn` below never runs out), which keeps the
function kernel-reducible. -/
def strSplitOnFuel (sep : Str) : Nat → Str → List Str
  | _, [] => [[]]
  | 0, s => [s]
  | fuel + 1, c :: rest =>
    if sep ≠ [] ∧ sep.isPrefixOf (c :: rest) then
      [] :: strSplitOnFuel sep fuel (rest.drop (sep.length - 1))
    else
      match strSplitOnFuel sep fuel rest with
      | [] => [[c]]
      | p :: ps => (c :: p) :: ps

/-- See `strSplitOnFuel`. -/
def strSplitOn (sep s : Str) : List Str := strSplitOnFuel sep s.length s

/-- Python `sep.join(pieces)`. -/
def joinWith (sep : Str) : List Str → Str
  | [] => []
  | [x] => x
  | x :: xs => x ++ sep ++ joinWith sep xs

/-- Split at the first occurrence of a substring, when there is one. -/
def splitFirstSub (sep : Str) (s : Str) : Option (Str × Str) :=
  match strSplitOn sep s with
  | p :: q :: rs => some (p, joinWith sep (q :: rs))
  | _ => none

/-- Lexicographic comparison of character lists (Python string `<`). -/
def strLt : Str → Str → Bool
  | [], [] => false
  | [], _ :: _ => true
  | _ :: _, [] => false
  | a :: as, b :: bs => if a < b then true else if b < a then false else strLt as bs

/-- Stable insertion: an element ties with an equal one already present by
staying in front of it, which makes the insertion sort below model Python's
stable `sorted` when elements are inserted back to front. -/
def stableInsert (le : α → α → Bool) (x : α) : List α → List α
  | [] => [x]
  | y :: ys => if le x y then x :: y :: ys else y :: stableInsert le x ys

/-- Stable sort (model of Python's `sorted`). -/
def stableSort (le : α → α → Bool) : List α → List α
  | [] => []
  | x :: xs => stableInsert le x (stableSort le xs)

/-- Insertion order of an `OrderedDict`: a key keeps its first position
(helper for the source's `_unique`). -/
def firstUniqueAux [DecidableEq α] (seen : List α) : List α → List α
  | [] => []
  | x :: xs =>
    if x ∈ seen then firstUniqueAux seen xs else x :: firstUniqueAux (x :: seen) xs

/-- The source's `_unique`:
`list(OrderedDict(zip(list(seq)[::-1], repeat(None))))[::-1]` — order-keeping
deduplication in which a repeated element keeps the position of its LAST
occurrence. -/
def pyUnique [DecidableEq α] (seq : List α) : List α :=
  (firstUniqueAux [] seq.reverse).reverse

/-- Python's built-in `max` over a list (`none` for the empty list, on which
the source's `max(...)` raises an uncaught `ValueError`): a left fold that
replaces the current maximum only on a strictly greater element. -/
def pyMax [LT V] [DecidableRel (α := V) (· < ·)] : List V → Option V
  | [] => none
  | x :: xs => some (xs.foldl (fun m v => if m < v then v else m) x)

/-- Python `list.index`: the first position of an element, `none` for the
`ValueError` when it is absent. -/
def listIndex [DecidableEq α] (x : α) : List α → Option Nat
  | [] => none
  | y :: ys => if y = x then some 0 else (listIndex x ys).map (· + 1)

/-- The `epoch`/`pkgver`/`pkgrel` triple of the source's `ArchVersion`
namedtuple. -/
structure ArchVersion where
  epoch : Str
  pkgver : Str
  pkgrel : Str
deriving DecidableEq

/-- `ArchVersion.__str__`: `epoch:pkgver-pkgrel`, with the epoch segment
omitted when the epoch is the empty (falsy) string. -/
def archVersionRender (v : ArchVersion) : Str :=
  if v.epoch = [] then v.pkgver ++ '-' :: v.pkgrel
  else v.epoch ++ ':' :: (v.pkgver ++ '-' :: v.pkgrel)

/-- Split a character list around the last occurrence of a character. -/
def splitLastChar (c : Char) (s : Str) : Option (Str × Str) :=
  match s.reverse.dropWhile (fun a => a ≠ c) with
  | [] => none
  | _ :: preRev => some (preRev.reverse, (s.reverse.takeWhile (fun a => a ≠ c)).reverse)

/-- Every reading of a string as `pre ++ ":" ++ suf`, by position of the
colon, leftmost first. -/
def colonSplits : Str → List (Str × Str)
  | [] => []
  | a :: rest =>
    (if a = ':' then [(([] : Str), rest)] else []) ++
      (colonSplits rest).map (fun pq => (a :: pq.1, pq.2))

/-- The greedy optional epoch group of
`re.fullmatch(r"(?:(.*):)?(.*)-(.*)", s)`: the rightmost colon whose suffix
still contains the `-` that the rest of the pattern needs. -/
def epochSplit (s : Str) : Option (Str × Str) :=
  ((colonSplits s).filter (fun pq => pq.2.contains '-')).getLast?

/-- The source's `ArchVersion.parse`, i.e.
`re.fullmatch(r"(?:(.*):)?(.*)-(.*)", s).groups()` with Python's greedy
backtracking; `.` does not match a newline, so a string containing one has no
full match and the source fails on `.groups()` (modelled as `none`). -/
def archVersionParse (s : Str) : Option ArchVersion :=
  if s.contains '\n' then none
  else
    match epochSplit s with
    | some (e, rest) =>
      match splitLastChar '-' rest with
      | some (p, r) => some ⟨e, p, r⟩
      | none => none
    | none =>
      match splitLastChar '-' s with
      | some (p, r) => some ⟨[], p, r⟩
      | none => none

/-- `TROVE_COMMON_LICENSES` of the source: licenses provided by the base
`licenses` package, keyed by the final classifier segment. -/
def TROVE_COMMON_LICENSES : List (Str × Str) := [
  (str "GNU Affero General Public License v3", str "AGPL3"),
  (str "GNU Affero General Public License v3 or later (AGPLv3+)", str "AGPL3"),
  (str "Apache Software License", str "Apache"),
  (str "Artistic License", str "Artistic2.0"),
  (str "GNU Free Documentation License (FDL)", str "FDL1.3"),
  (str "GNU General Public License (GPL)", str "GPL"),
  (str "GNU General Public License v2 (GPLv2)", str "GPL2"),
  (str "GNU General Public License v2 or later (GPLv2+)", str "GPL2"),
  (str "GNU General Public License v3 (GPLv3)", str "GPL3"),
  (str "GNU General Public License v3 or later (GPLv3+)", str "GPL3"),
  (str "GNU Library or Lesser General Public License (LGPL)", str "LGPL"),
  (str "GNU Lesser General Public License v2 (LGPLv2)", str "LGPL2.1"),
  (str "GNU Lesser General Public License v2 or later (LGPLv2+)", str "LGPL2.1"),
  (str "GNU Lesser General Public License v3 (LGPLv3)", str "LGPL3"),
  (str "GNU Lesser General Public License v3 or later (LGPLv3+)", str "LGPL3"),
  (str "Mozilla Public License 1.1 (MPL 1.1)", str "MPL"),
  (str "Mozilla Public License 2.0 (MPL 2.0)", str "MPL"),
  (str "Python Software Foundation License", str "PSF"),
  (str "W3C License", str "W3C"),
  (str "Zope Public License", str "ZPL")]

/-- `TROVE_SPECIAL_LICENSES` of the source: standard licenses that carry
their own license file. -/
def TROVE_SPECIAL_LICENSES : List (Str × Str) := [
  (str "BSD License", str "BSD"),
  (str "MIT License", str "MIT"),
  (str "zlib/libpng License", str "ZLIB"),
  (str "Python License (CNRI Python License)", str "Python")]

/-- `LICENSE_NAMES` of the source. -/
def LICENSE_NAMES : List Str :=
  [str "LICENSE", str "LICENSE.txt", str "LICENCE", str "LICENCE.txt",
   str "license.txt", str "COPYING.rst", str "COPYING.txt", str "COPYRIGHT"]

/-- `PLATFORM_TAGS` of the source: wheel platform tag to Arch architecture. -/
def PLATFORM_TAGS : List (Str × Str) :=
  [(str "any", str "any"), (str "manylinux1_i686", str "i686"),
   (str "manylinux1_x86_64", str "x86_64")]

/-- The wheel-platform-to-preference-bucket dictionary inlined in
`Package._filter_and_sort_urls`. -/
def WHEEL_BUCKETS : List (Str × Str) :=
  [(str "any", str "anywheel"), (str "manylinux1_i686", str "manylinuxwheel"),
   (str "manylinux1_x86_64", str "manylinuxwheel")]

/-- `pathlib.PurePath.name`: the last non-empty path component. -/
def pathName (p : Str) : Str :=
  ((List.splitOn '/' p).filter (fun c => !(c == []))).getLastD []

/-- `pathlib.PurePath.stem` of a file name: the name with its last suffix
removed, where a suffix needs a dot that is neither the first nor the last
character. -/
def pyStem (nm : Str) : Str :=
  let afterRev := nm.reverse.takeWhile (fun c => c ≠ '.')
  if afterRev.length = nm.length then nm
  else
    let i := nm.length - 1 - afterRev.length
    if 0 < i ∧ i < nm.length - 1 then nm.take i else nm

/-- The parsed fields of a wheel file name (`WheelInfo` namedtuple). -/
structure WheelInfo where
  name : Str
  version : Str
  build : Str
  python : Str
  abi : Str
  platform : Str
deriving DecidableEq

/-- `WheelInfo.parse`: split the path's stem on `-` into five or six fields;
any other count raises `ValueError`, modelled as `none`. -/
def wheelInfoParse (fname : Str) : Option WheelInfo :=
  match List.splitOn '-' (pyStem (pathName fname)) with
  | [name, version, python, abi, platform] => some ⟨name, version, [], python, abi, platform⟩
  | [name, version, build, python, abi, platform] =>
      some ⟨name, version, build, python, abi, platform⟩
  | _ => none

/-- One artifact entry of the index's JSON (`urls` array element). -/
structure PyUrl where
  packagetype : Str
  path : Str
  url : Str
  md5_digest : Str
deriving DecidableEq

/-- The `info` object of the index's JSON (the fields the source reads). -/
structure PyInfo where
  name : Str
  version : Str
  summary : Str
  license : Option Str
  classifiers : List Str
  home_page : Option Str
  download_url : Option Str
  package_url : Option Str
deriving DecidableEq

/-- An index response as `_get_pypi_info` returns it: `info`, the keys of the
`releases` mapping, the `urls` artifact list, and the added
`_pkgname_suffix`. -/
structure PyResponse where
  info : PyInfo
  releases : List Str
  urls : List PyUrl
  pkgname_suffix : Str
deriving DecidableEq

/-- The installed-package metadata `_get_metadata` extracts from the trial
installation (`pip show` JSON, keys dash-normalized). -/
structure PyMetadata where
  name : Str
  version : Str
  summary : Str
  license : Option Str
  classifiers : List Str
  requires : List Str
deriving DecidableEq

/-- The error surface of the resolution core: `PackagingError` with its
message, or an exception the source never catches. -/
inductive PyErr
  | packaging (msg : Str)
  | uncaught
deriving DecidableEq

/-- The filtering loop of `Package._filter_and_sort_urls`: each kept artifact
is paired with the position of its preference bucket in `pkgtypes`.  `none`
models the `ValueError` an unparsable wheel file name raises out of the
method (only `pkgtypes.index`'s `ValueError` and the bucket dictionary's
`KeyError` are caught by the `except` clause).  A binary wheel whose parsed
name or version disagrees with the resolved package identity is logged as a
warning and skipped (not appended). -/
def collectUrls (pyTags pkgtypes : List Str) (wheelName ver : Str) :
    List PyUrl → Option (List (PyUrl × Nat))
  | [] => some []
  | u :: rest =>
    if u.packagetype = str "bdist_wheel" then
      match wheelInfoParse u.path with
      | none => none
      | some wi =>
        if wi.python ∉ pyTags then collectUrls pyTags pkgtypes wheelName ver rest
        else
          match (List.lookup wi.platform WHEEL_BUCKETS).bind
              (fun b => listIndex b pkgtypes) with
          | none => collectUrls pyTags pkgtypes wheelName ver rest
          | some order =>
            if wi.name ≠ wheelName ∨ wi.version ≠ ver then
              collectUrls pyTags pkgtypes wheelName ver rest
            else (collectUrls pyTags pkgtypes wheelName ver rest).map ((u, order) :: ·)
    else if u.packagetype = str "sdist" then
      match listIndex (str "sdist") pkgtypes with
      | none => collectUrls pyTags pkgtypes wheelName ver rest
      | some order => (collectUrls pyTags pkgtypes wheelName ver rest).map ((u, order) :: ·)
    else collectUrls pyTags pkgtypes wheelName ver rest

/-- `Package._filter_and_sort_urls`: keep the compatible artifacts, then sort
them with Python's stable `sorted`, ascending by bucket position. -/
def filterAndSortUrls (pyTags pkgtypes : List Str) (wheelName ver : Str)
    (unfilteredUrls : List PyUrl) : Option (List PyUrl) :=
  (collectUrls pyTags pkgtypes wheelName ver unfilteredUrls).map
    (fun l => (stableSort (fun a b => decide (a.2 ≤ b.2)) l).map Prod.fst)

/-- Outcome oracle for one `_get_metadata` trial-installation script run. -/
structure MetaOracle where
  firstInstallOk : Bool
  showOk : Bool
  retryOk : Bool
  meta : PyMetadata
deriving DecidableEq

/-- The name normalization at the top of `_get_metadata`'s install script:
`{"setuptools": ..., "numpy": "numpy"}.get(name.lower(), name.lower())`. -/
def pySubstName (name : Str) : Str :=
  (List.lookup (strLower name)
    [(str "setuptools", str "setuptools"), (str "pip", str "pip"),
     (str "cython", str "Cython"), (str "numpy", str "numpy")]).getD (strLower name)

/-- The `_get_metadata` script body for fixed outcomes: install into a fresh
venv and on success show the metadata; on failure install numpy, record it in
the `more_requires` file, retry the install exactly once and show.  A failing
script (`CalledProcessError`) raises
`PackagingError("Failed to obtain metadata for '<name>'.")`; on the retry
path the recorded `more_requires` lines (exactly `["numpy"]`) are appended to
the returned `requires` list. -/
def getMetadataPure (name : Str) (o : MetaOracle) : Except PyErr PyMetadata :=
  if o.firstInstallOk then
    if o.showOk then .ok o.meta
    else .error (.packaging (str "Failed to obtain metadata for '" ++ name ++ str "'."))
  else
    if o.retryOk then .ok { o.meta with requires := o.meta.requires ++ [str "numpy"] }
    else .error (.packaging (str "Failed to obtain metadata for '" ++ name ++ str "'."))

/-- Number of `pip install` attempts for the package itself in one
`_get_metadata` script run: one, plus exactly one retry when the first
fails. -/
def installAttempts (o : MetaOracle) : Nat := if o.firstInstallOk then 1 else 2

/-- The process-wide state: operation counters (network index fetches, local
shell queries, trial-installation attempts), the two `lru_cache` contents,
and the next object identity. -/
structure World where
  netCount : Nat
  localCount : Nat
  trialCount : Nat
  pypiCache : List ((Str × Bool × Str) × PyResponse)
  metaCache : List ((Str × Bool) × PyMetadata)
  nextId : Nat
deriving DecidableEq

/-- The environment of pure oracles describing the outside world, and the
interpreter constants.  `V` is the version type of the external
`packaging.version` parser, ordered totally by its `LinearOrder`/`LT`
instance (the source never compares version strings lexically). -/
structure Env (V : Type) where
  pyTags : List Str
  versionParse : Str → V
  versionStr : V → Str
  isPrerel : V → Bool
  fetch : Str → Str → Option PyResponse
  metaO : Str → Bool → MetaOracle
  qo : Str → List Str
  conflictsGit : Str → Bool
  pkgfileParts : Str → List Str
  pkgfileList : Str → List Str
  srcGlobI : Str → Bool
  srcGlobPyx : Str → Bool
  srcGlobC : Str → Bool
  httpOk : Str → Bool
  httpBody : Str → Str
  srcFile : Str → Str → Option Str

variable {V : Type} [LinearOrder V]

/-- `_get_metadata` with its `lru_cache`, keyed by
`(name, makedepends_cython)`: a miss consults the trial-installation oracle
under the normalized name, counts the install attempts in `trialCount`, and
caches only a successful result (`lru_cache` does not cache a raised
exception). -/
def getMetadataSt (env : Env V) (name : Str) (flag : Bool) (w : World) :
    Except PyErr PyMetadata × World :=
  match List.lookup (name, flag) w.metaCache with
  | some m => (.ok m, w)
  | none =>
    let o := env.metaO (pySubstName name) flag
    let w1 := { w with trialCount := w.trialCount + installAttempts o }
    match getMetadataPure name o with
    | .ok m => (.ok m, { w1 with metaCache := ((name, flag), m) :: w1.metaCache })
    | .error e => (.error e, w1)

/-- A slice of `urllib.parse.urlparse` sufficient for the source's uses:
scheme, network location and path of a `scheme://netloc/path` URL; a string
without `://` is all path. -/
structure UrlParts where
  scheme : Str
  netloc : Str
  path : Str
deriving DecidableEq

/-- See `UrlParts`. -/
def urlParse (u : Str) : UrlParts :=
  match splitFirstSub (str "://") u with
  | none => ⟨[], [], u⟩
  | some (sch, rest) =>
    match List.splitOn '/' rest with
    | [] => ⟨sch, rest, []⟩
    | h :: t => ⟨sch, h, if t = [] then [] else '/' :: joinWith ['/'] t⟩

/-- `_get_pypi_info` including its `lru_cache` wrapper, keyed by
`(name, pre, _version)`.  `fuel` bounds the recursion depth (each source call
path recurses at most once; exhausted fuel is modelled as an uncaught
error).  Each `urllib` index fetch bumps `netCount`; a 404 raises
`PackagingError("Package '<name>' not found.")`, and like every raised
exception it is not cached.  A `git+` origin builds a synthetic response from
trial-installation metadata, normalizing the name through a recursive lookup
whose `PackagingError` alone is swallowed.  An origin without a pinned
version computes the maximum of the prerelease-filtered parsed releases with
Python's `max` and, when its rendering differs from the index's own `version`
field, re-queries pinned to that maximum and returns (and caches, under the
unpinned key) the re-query's result. -/
def getPypiInfoSt (env : Env V) :
    Nat → Str → Bool → Str → World → Except PyErr PyResponse × World
  | 0, _, _, _, w => (.error .uncaught, w)
  | fuel + 1, name, pre, ver, w =>
    match List.lookup (name, pre, ver) w.pypiCache with
    | some r => (.ok r, w)
    | none =>
      if (str "git+").isPrefixOf name then
        match getMetadataSt env name true w with
        | (.error e, w1) => (.error e, w1)
        | (.ok m, w1) =>
          match getPypiInfoSt env fuel m.name false (str "") w1 with
          | (.error .uncaught, w2) => (.error .uncaught, w2)
          | (normRes, w2) =>
            let finalName := match normRes with
              | .ok rr => rr.info.name
              | _ => m.name
            let stripped := name.drop 4
            let resp : PyResponse :=
              { info := { name := finalName, version := m.version, summary := m.summary,
                          license := m.license, classifiers := m.classifiers,
                          home_page := some stripped, download_url := some stripped,
                          package_url := some stripped },
                releases := [],
                urls := [{ packagetype := str "sdist", path := (urlParse name).path,
                           url := name, md5_digest := str "SKIP" }],
                pkgname_suffix := str "-git" }
            (.ok resp, { w2 with pypiCache := ((name, pre, ver), resp) :: w2.pypiCache })
      else
        match env.fetch name ver with
        | none =>
          (.error (.packaging (str "Package '" ++ name ++ str "' not found.")),
           { w with netCount := w.netCount + 1 })
        | some raw =>
          let w1 := { w with netCount := w.netCount + 1 }
          if ver = str "" then
            let filtered := (raw.releases.map env.versionParse).filter
              (fun v => !(!pre && env.isPrerel v))
            match pyMax filtered with
            | none => (.error .uncaught, w1)
            | some m =>
              if env.versionStr m ≠ raw.info.version then
                match getPypiInfoSt env fuel name pre (env.versionStr m) w1 with
                | (.ok r, w2) =>
                  (.ok r, { w2 with pypiCache := ((name, pre, ver), r) :: w2.pypiCache })
                | (.error e, w2) => (.error e, w2)
              else
                let r := { raw with pkgname_suffix := str "" }
                (.ok r, { w1 with pypiCache := ((name, pre, ver), r) :: w1.pypiCache })
          else
            let r := { raw with pkgname_suffix := str "" }
            (.ok r, { w1 with pypiCache := ((name, pre, ver), r) :: w1.pypiCache })

/-- `_find_installed`: one `pacman -Qo` pipeline (the oracle returns its
whitespace-split output).  No output means no local installation; exactly two
fields are the `pkgname version` pair; any other shape is the uncaught
unpacking `ValueError` (the ambiguous case the spec calls fatal).  A `-git`
suffixed owner triggers one extra `pacman -Qi | grep` call, which
`_run_shell` (check=True) turns into an uncaught `CalledProcessError` when
the conflict line is absent; the version is then parsed by
`ArchVersion.parse` (an unmatchable version is an uncaught error).  The
result is returned with the number of shell commands run. -/
def findInstalledPure (env : Env V) (pypiName : Str) :
    Except PyErr (Option (Str × ArchVersion)) × Nat :=
  match env.qo (replaceChar '-' ['_'] pypiName) with
  | [] => (.ok none, 1)
  | [pkgname, version] =>
    if (str "-git").isSuffixOf pkgname then
      if env.conflictsGit pkgname then
        match archVersionParse version with
        | some av => (.ok (some (pkgname.take (pkgname.length - 4), av)), 2)
        | none => (.error .uncaught, 2)
      else (.error .uncaught, 2)
    else
      match archVersionParse version with
      | some av => (.ok (some (pkgname, av)), 1)
      | none => (.error .uncaught, 1)
  | _ => (.error .uncaught, 1)

/-- The local-state probing of `PackageRef.__init__` after the index fetch,
pure in the oracles: the final `(pkgname, arch_version, arch_packaged,
exists)` tuple (or the uncaught error the source raises), with the number of
shell commands run.  A subpackage (`is_subpackage=True`) skips all probing
and keeps the collision-avoiding `python--` prefixed name.  When
`_find_installed` yields nothing (the caught `TypeError`), the `pkgfile`
file-index fallback runs, whose unpacking `ValueError` (any field count
other than two) is caught and means "does not exist"; when an installation
is found, one further `pkgfile -l` call lists the provided top-level
components. -/
def resolveLocal (env : Env V) (resp : PyResponse) (isSubpackage : Bool) :
    Except PyErr (Str × Option ArchVersion × List Str × Bool) × Nat :=
  let pypiName := resp.info.name
  let wheelName := replaceChar '-' ['_'] pypiName
  let defaultPkgname :=
    str "python-" ++ (if isSubpackage then str "-" else str "") ++
      strLower pypiName ++ resp.pkgname_suffix
  if isSubpackage then (.ok (defaultPkgname, none, [], false), 0)
  else
    match findInstalledPure env pypiName with
    | (.error e, n) => (.error e, n)
    | (.ok (some (pkg, av)), n) =>
      let pkgname := pkg ++ resp.pkgname_suffix
      (.ok (pkgname, some av, env.pkgfileList pkgname, true), n + 1)
    | (.ok none, n) =>
      match env.pkgfileParts wheelName with
      | [pkg, version] =>
        match archVersionParse version with
        | some av =>
          let pkgname := pkg ++ resp.pkgname_suffix
          (.ok (pkgname, some av, env.pkgfileList pkgname, true), n + 2)
        | none => (.error .uncaught, n + 1)
      | _ => (.ok (defaultPkgname, none, [], false), n + 1)

/-- The constructed `PackageRef` object.  `instId` models Python object
identity: each construction allocates a fresh one. -/
structure RefCore where
  orig_name : Str
  pypi_name : Str
  wheel_name : Str
  pkgname : Str
  arch_version : Option ArchVersion
  arch_packaged : List Str
  existsLocally : Bool
  info : PyResponse
  instId : Nat
deriving DecidableEq

/-- `PackageRef.__init__`: fetch (memoized) index metadata for the origin,
then probe the local state; each construction returns a fresh instance
(`instId`), and the construction itself is not memoized. -/
def packageRefNew (env : Env V) (fuel : Nat) (name : Str) (pre isSubpackage : Bool)
    (w : World) : Except PyErr RefCore × World :=
  match getPypiInfoSt env fuel name pre (str "") w with
  | (.error e, w1) => (.error e, w1)
  | (.ok resp, w1) =>
    match resolveLocal env resp isSubpackage with
    | (.error e, n) => (.error e, { w1 with localCount := w1.localCount + n })
    | (.ok (pkg, av, packaged, ex), n) =>
      (.ok { orig_name := name, pypi_name := resp.info.name,
             wheel_name := replaceChar '-' ['_'] resp.info.name,
             pkgname := pkg, arch_version := av, arch_packaged := packaged,
             existsLocally := ex, info := resp, instId := w1.nextId },
       { w1 with localCount := w1.localCount + n, nextId := w1.nextId + 1 })

/-- A make-dependency: a resolved Python `PackageRef` or a
`NonPyPackageRef` by Arch package name. -/
inductive MakeDep
  | py (r : RefCore)
  | nonpy (pkgname : Str)
deriving DecidableEq

/-- The slice of the CLI `Options` namedtuple that the resolution core
reads. -/
structure ResolveOptions where
  pre : Bool
  pkgrel : Str
  guess_makedepends : List Str
  pkgtypes : List Str
deriving DecidableEq

/-- Deduplicated (set comprehension) then Python-sorted Arch architectures of
the chosen binary wheels (`sorted({PLATFORM_TAGS[...]})` in
`_find_arch_makedepends`); `none` is the impossible `KeyError`/parse failure
on an already-filtered URL list. -/
def wheelArchs (urls : List PyUrl) : Option (List Str) :=
  ((urls.filter (fun u => u.packagetype == str "bdist_wheel")).mapM
    (fun u => (wheelInfoParse u.path).bind
      (fun wi => List.lookup wi.platform PLATFORM_TAGS))).map
    (fun tags => stableSort (fun a b => !(strLt b a)) (firstUniqueAux [] tags))

/-- First sdist among the chosen URLs
(`next(url for url in self._urls if url["packagetype"] == "sdist")` in
`_get_srctree`; `none` models the uncaught `StopIteration`). -/
def firstSdist (urls : List PyUrl) : Option PyUrl :=
  urls.find? (fun u => u.packagetype == str "sdist")

/-- `Package._find_arch_makedepends`: always a `PackageRef("pip")`
make-dependency first; a wheel in front keeps the wheels' architecture set;
otherwise the sdist source tree is probed — an interface-definition match
under the swig guess or an accelerator-source match under the cython guess
widens the architectures and appends the respective make-dependency
(constructing `PackageRef("Cython")` for the latter), and plain C sources
widen them too unless an `any` wheel is known to exist. -/
def findArchMakedepends (env : Env V) (fuel : Nat) (opts : ResolveOptions)
    (urls : List PyUrl) (w : World) : Except PyErr (List Str × List MakeDep) × World :=
  match packageRefNew env fuel (str "pip") false false w with
  | (.error e, w1) => (.error e, w1)
  | (.ok pipRef, w1) =>
    match wheelArchs urls with
    | none => (.error .uncaught, w1)
    | some archs =>
      match urls with
      | [] => (.error .uncaught, w1)
      | u0 :: _ =>
        if u0.packagetype = str "bdist_wheel" then
          (.ok (archs, [MakeDep.py pipRef]), w1)
        else
          match firstSdist urls with
          | none => (.error .uncaught, w1)
          | some su =>
            let arch0 := [str "any"]
            let deps0 := [MakeDep.py pipRef]
            let (arch1, deps1) :=
              if opts.guess_makedepends.contains (str "swig") && env.srcGlobI su.url then
                ([str "i686", str "x86_64"], deps0 ++ [MakeDep.nonpy (str "swig")])
              else (arch0, deps0)
            if opts.guess_makedepends.contains (str "cython") && env.srcGlobPyx su.url then
              match packageRefNew env fuel (str "Cython") false false w1 with
              | (.error e, w2) => (.error e, w2)
              | (.ok cyRef, w2) =>
                let arch2 := [str "i686", str "x86_64"]
                let deps2 := deps1 ++ [MakeDep.py cyRef]
                let arch3 :=
                  if !(archs.contains (str "any")) && env.srcGlobC su.url then
                    [str "i686", str "x86_64"]
                  else arch2
                (.ok (arch3, deps2), w2)
            else
              let arch3 :=
                if !(archs.contains (str "any")) && env.srcGlobC su.url then
                  [str "i686", str "x86_64"]
                else arch1
              (.ok (arch3, deps1), w1)

/-- `Package._find_depends`: one `PackageRef` per extracted runtime
requirement, in order. -/
def buildRefList (env : Env V) (fuel : Nat) :
    List Str → World → Except PyErr (List RefCore) × World
  | [], w => (.ok [], w)
  | n :: ns, w =>
    match packageRefNew env fuel n false false w with
    | (.error e, w1) => (.error e, w1)
    | (.ok r, w1) =>
      match buildRefList env fuel ns w1 with
      | (.error e, w2) => (.error e, w2)
      | (.ok rs, w2) => (.ok (r :: rs), w2)

/-- The license-class list of `Package._find_license`: classifiers starting
with `License :: `, except the bare `License :: OSI Approved`. -/
def licenseClasses (classifiers : List Str) : List Str :=
  classifiers.filter
    (fun c => (str "License :: ").isPrefixOf c &&
      !(c == str "License :: OSI Approved"))

/-- Classification of one license classifier: its last ` :: ` segment looked
up in the merged dictionary
`{**TROVE_COMMON_LICENSES, **TROVE_SPECIAL_LICENSES}` (their key sets are
disjoint, so list lookup over the concatenation agrees with the dict merge),
else the verbatim `custom:<segment>` passthrough. -/
def classifyOne (c : Str) : Str :=
  let seg := (strSplitOn (str " :: ") c).getLastD []
  match List.lookup seg (TROVE_COMMON_LICENSES ++ TROVE_SPECIAL_LICENSES) with
  | some v => v
  | none => str "custom:" ++ seg

/-- The license-list computation of `Package._find_license` before the
license-file discovery: license classifiers take precedence; else the
free-text `license` field unless it is `None` or the `"UNKNOWN"` sentinel;
else the single warning fallback `custom:unknown`. -/
def findLicensesPure (info : PyInfo) : List Str :=
  let lcs := licenseClasses info.classifiers
  if lcs ≠ [] then lcs.map classifyOne
  else
    match info.license with
    | some l => if l = str "UNKNOWN" then [str "custom:unknown"] else [str "custom:" ++ l]
    | none => [str "custom:unknown"]

/-- `pathlib.PurePath.parts` of a POSIX path string: a leading `/` part when
absolute, then the non-empty components. -/
def pyPathParts (p : Str) : List Str :=
  let comps := (List.splitOn '/' p).filter (fun c => !(c == []))
  if p.head? = some '/' then ['/'] :: comps else comps

/-- The raw-content base URL derivation of `Package._find_license`: an
owner/repo shaped path (exactly three `parts`) on a known source-hosting
service; github rewrites the network location, bitbucket appends `/raw`. -/
def hostRawUrl (u : Str) : Option Str :=
  let pr := urlParse u
  if (pyPathParts pr.path).length ≠ 3 then none
  else if pr.netloc = str "github.com" ∨ pr.netloc = str "www.github.com" then
    some (pr.scheme ++ str "://raw.githubusercontent.com" ++ pr.path)
  else if pr.netloc = str "bitbucket.org" ∨ pr.netloc = str "www.bitbucket.org" then
    some (u ++ str "/raw")
  else none

/-- The inner license-filename loop against a hosting service: the first
canonical license file name that fetches successfully under `/master/`. -/
def tryLicenseNames (env : Env V) (base : Str) : Option Str :=
  (LICENSE_NAMES.find? (fun n => env.httpOk (base ++ str "/master/" ++ n))).map
    (fun n => env.httpBody (base ++ str "/master/" ++ n))

/-- The outer URL loop of the license-file discovery: the download URL, then
the home page (each `or ""` when missing); a URL of the right shape whose
filename loop finds nothing leaves `_license_found` false and the loop
continues. -/
def tryHosts (env : Env V) (info : PyInfo) : Option Str :=
  ([info.download_url.getD [], info.home_page.getD []].filterMap
    (fun u => (hostRawUrl u).bind (tryLicenseNames env))).head?

/-- The source-tree fallback of the discovery: the first canonical license
file name present in the unpacked sdist (keyed by the sdist URL). -/
def firstSrcLicense (env : Env V) (sdistUrl : Str) : Option Str :=
  (LICENSE_NAMES.filterMap (fun n => env.srcFile sdistUrl n)).head?

/-- The license-file discovery step of `Package._find_license`, run whenever
some computed license id is not a key of `TROVE_COMMON_LICENSES` (the source
tests membership against the dictionary, hence its keys): hosting services
first, then the unpacked source tree (whose absence of an sdist is the
uncaught `StopIteration` of `_get_srctree`), then the synthesized
`LICENSE: <comma-joined ids>` placeholder.  The result is what is stored
into `self._files["LICENSE"]`. -/
def licenseFileStep (env : Env V) (urls : List PyUrl) (info : PyInfo)
    (licenses : List Str) : Except PyErr (Option Str) :=
  if licenses.any (fun l => !((TROVE_COMMON_LICENSES.map Prod.fst).contains l)) then
    match tryHosts env info with
    | some body => .ok (some body)
    | none =>
      match firstSdist urls with
      | none => .error .uncaught
      | some su =>
        match firstSrcLicense env su.url with
        | some body => .ok (some body)
        | none => .ok (some (str "LICENSE: " ++ joinWith (str ", ") licenses ++ ['\n']))
  else .ok none

/-- The PKGBUILD `url` header field: the first of home page, download URL,
package URL that is neither missing nor `"UNKNOWN"` (`next(...)`; `none`
models the uncaught `StopIteration`). -/
def pickUrl (info : PyInfo) : Option Str :=
  ([info.home_page, info.download_url, info.package_url].filterMap
    (fun o => o.bind (fun u => if u = str "UNKNOWN" then none else some u))).head?

/-- The safe character class of `shlex.quote`: ASCII alphanumerics, the
underscore, and the characters of "@%+=:,." plus slash and dash. -/
def shlexSafe (c : Char) : Bool :=
  c.isAlphanum || (str "@%+=:,./-_").contains c

/-- `shlex.quote`: unchanged when every character is safe, else wrapped in
single quotes with embedded single quotes escaped. -/
def shlexQuote (s : Str) : Str :=
  if s = [] then str "''"
  else if s.all shlexSafe then s
  else ['\''] ++ replaceChar '\'' (str "'\"'\"'") s ++ ['\'']

/-- The structural view of one generated standard package (the `Package`
object with the header fields of its PKGBUILD; the fixed template body is out
of scope).  `conflicts` stands for the header's `conflicts=()` line, which
`MetaPackage.__init__` later overwrites by a single first-occurrence text
replacement. -/
structure PkgManifest where
  pkgname : Str
  epoch : Str
  pkgver : Str
  pkgrel : Str
  pkgdesc : Str
  arch : List Str
  urlField : Str
  licenses : List Str
  depends : List RefCore
  makedepends : List MakeDep
  checkdepends : List RefCore
  conflicts : List Str
  files : List (Str × Str)
  urls : List PyUrl
deriving DecidableEq

/-- `Package.__init__`: choose and order the artifact URLs (an empty result
raises `PackagingError("No URL available for package '<name>'.")`), compute
architectures and make-dependencies, install each missing non-Python
make-dependency (one shell call each), obtain the trial-installation
metadata (with the Cython flag when a Cython make-dependency was guessed),
resolve every extracted runtime requirement into its own `PackageRef`,
classify the license and run the license-file discovery, and assemble the
manifest. -/
def packageInit (env : Env V) (fuel : Nat) (opts : ResolveOptions) (ref : RefCore)
    (w : World) : Except PyErr PkgManifest × World :=
  match filterAndSortUrls env.pyTags opts.pkgtypes ref.wheel_name ref.info.info.version
      ref.info.urls with
  | none => (.error .uncaught, w)
  | some urls =>
    if urls = [] then
      (.error (.packaging (str "No URL available for package '" ++ ref.pkgname ++ str "'.")), w)
    else
      match findArchMakedepends env fuel opts urls w with
      | (.error e, w1) => (.error e, w1)
      | (.ok (arch, makedeps), w1) =>
        let nNonpy := makedeps.countP
          (fun d => match d with | .nonpy _ => true | _ => false)
        let w2 := { w1 with localCount := w1.localCount + nNonpy }
        let cy := makedeps.any
          (fun d => match d with | .py r => r.pypi_name == str "Cython" | _ => false)
        match getMetadataSt env ref.orig_name cy w2 with
        | (.error e, w3) => (.error e, w3)
        | (.ok md, w3) =>
          match buildRefList env fuel md.requires w3 with
          | (.error e, w4) => (.error e, w4)
          | (.ok deps, w4) =>
            let licenses := findLicensesPure ref.info.info
            match licenseFileStep env urls ref.info.info licenses with
            | .error e => (.error e, w4)
            | .ok fileOpt =>
              match pickUrl ref.info.info with
              | none => (.error .uncaught, w4)
              | some u =>
                (.ok { pkgname := ref.pkgname,
                       epoch := (match ref.arch_version with
                         | some v => v.epoch
                         | none => []),
                       pkgver := shlexQuote ref.info.info.version,
                       pkgrel := opts.pkgrel,
                       pkgdesc := shlexQuote ref.info.info.summary,
                       arch := arch,
                       urlField := shlexQuote u,
                       licenses := licenses,
                       depends := deps,
                       makedepends := makedeps,
                       checkdepends := [],
                       conflicts := [],
                       files := (match fileOpt with
                         | some b => [(str "LICENSE", b)]
                         | none => []),
                       urls := urls }, w4)

/-- The structural view of one generated meta (aggregate) package. -/
structure MetaManifest where
  pkgname : Str
  epoch : Str
  pkgver : Str
  pkgrel : Str
  pkgdesc : Str
  arch : List Str
  urlField : Str
  licenses : List Str
  depends : List PkgManifest
deriving DecidableEq

/-- The sub-package construction loop of `MetaPackage.__init__`:
`Package(PackageRef(name, is_subpackage=True), ...)` for each provided
component name, in order, threading the world. -/
def buildSubPackages (env : Env V) (fuel : Nat) (opts : ResolveOptions) :
    List Str → World → Except PyErr (List PkgManifest) × World
  | [], w => (.ok [], w)
  | n :: ns, w =>
    match packageRefNew env fuel n false true w with
    | (.error e, w1) => (.error e, w1)
    | (.ok r, w1) =>
      match packageInit env fuel opts r w1 with
      | (.error e, w2) => (.error e, w2)
      | (.ok p, w2) =>
        match buildSubPackages env fuel opts ns w2 with
        | (.error e, w3) => (.error e, w3)
        | (.ok ps, w3) => (.ok (p :: ps), w3)

/-- `MetaPackage.__init__`: build one standalone sub-package per provided
component name; bump the locally installed version's `pkgrel` by appending
`.99`; then patch each sub-package's PKGBUILD, replacing the first
`conflicts=()` (its header line, modelled as the `conflicts` field) by the
strict two-sided bound
`conflicts=('<pkgname><<version>' '<pkgname>><version>')` against the
aggregate's own name and bumped version.  A reference with no locally
installed version fails on `None._replace` (uncaught), after the
sub-packages were built. -/
def metaPackageInit (env : Env V) (fuel : Nat) (opts : ResolveOptions)
    (ref : RefCore) (w : World) : Except PyErr MetaManifest × World :=
  match buildSubPackages env fuel opts ref.arch_packaged w with
  | (.error e, w1) => (.error e, w1)
  | (.ok subs, w1) =>
    match ref.arch_version with
    | none => (.error .uncaught, w1)
    | some av =>
      let bumped : ArchVersion := { av with pkgrel := av.pkgrel ++ str ".99" }
      let vs := archVersionRender bumped
      let patched := subs.map (fun p =>
        { p with conflicts := [ref.pkgname ++ '<' :: vs, ref.pkgname ++ '>' :: vs] })
      (.ok { pkgname := ref.pkgname, epoch := bumped.epoch, pkgver := bumped.pkgver,
             pkgrel := bumped.pkgrel, pkgdesc := str "'A wrapper package.'",
             arch := [str "any"], urlField := str "N/A", licenses := [str "CCPL:by"],
             depends := patched }, w1)

/-- The two manifest kinds `dispatch_package_builder` can emit. -/
inductive BuiltPackage
  | std (m : PkgManifest)
  | meta (m : MetaManifest)
deriving DecidableEq

/-- `dispatch_package_builder`: construct the `PackageRef`, then build a
`Package` when the local installation provides at most one index-level
component name, and a `MetaPackage` otherwise. -/
def dispatchPackageBuilder (env : Env V) (fuel : Nat) (opts : ResolveOptions)
    (name : Str) (w : World) : Except PyErr BuiltPackage × World :=
  match packageRefNew env fuel name opts.pre false w with
  | (.error e, w1) => (.error e, w1)
  | (.ok ref, w1) =>
    if ref.arch_packaged.length ≤ 1 then
      match packageInit env fuel opts ref w1 with
      | (.error e, w2) => (.error e, w2)
      | (.ok m, w2) => (.ok (.std m), w2)
    else
      match metaPackageInit env fuel opts ref w1 with
      | (.error e, w2) => (.error e, w2)
      | (.ok m, w2) => (.ok (.meta m), w2)

/-- Validity of one field of an `(epoch, pkgver, pkgrel)` triple: no colon,
no dash, no newline — the character set of well-formed Arch version fields
(epoch and pkgrel are numeric with dots, pkgver admits neither `:` nor
`-`). -/
def archFieldValid (l : Str) : Prop := ':' ∉ l ∧ '-' ∉ l ∧ '\n' ∉ l

instance (l : Str) : Decidable (archFieldValid l) := by
  unfold archFieldValid; infer_instance

/-! Concrete fixtures: a small closed environment over `V := Nat` used to
instantiate the theorems below at concrete inputs (witnesses and
counterexamples). -/

/-- The interpreter tags of a CPython 3.7 (`PY_TAGS`). -/
def tags0 : List Str := [str "py2.py3", str "py3", str "cp37"]

/-- The default artifact preference order of the CLI. -/
def ptypes0 : List Str := [str "anywheel", str "sdist", str "manylinuxwheel"]

/-- A license classifier mapping to the common `Apache` id. -/
def clsApache : Str := str "License :: OSI Approved :: Apache Software License"

/-- An `any` wheel artifact of `suba 1.0`. -/
def wheelA : PyUrl :=
  ⟨str "bdist_wheel", str "suba-1.0-py3-none-any.whl", str "uA", str "mA"⟩

/-- An `any` wheel artifact of `subb 1.0`. -/
def wheelB : PyUrl :=
  ⟨str "bdist_wheel", str "subb-1.0-py3-none-any.whl", str "uB", str "mB"⟩

/-- A wheel whose parsed version `2.0` mismatches the resolved `foo 1.0`. -/
def wMis : PyUrl :=
  ⟨str "bdist_wheel", str "foo-2.0-py3-none-any.whl", str "u1", str "m1"⟩

/-- A wheel whose parsed identity matches the resolved `foo 1.0`. -/
def wFoo : PyUrl :=
  ⟨str "bdist_wheel", str "foo-1.0-py3-none-any.whl", str "u2", str "m2"⟩

/-- An sdist artifact of `foo 1.0`. -/
def sdFoo : PyUrl := ⟨str "sdist", str "foo-1.0.tar.gz", str "u3", str "m3"⟩

/-- An owner/repo shaped home page on a known hosting service. -/
def ghUrl : Str := str "http://github.com/u/r"

/-- An index `info` object with the given name, classifiers and home page. -/
def mkInfo (n : String) (cls : List Str) (hp : Option Str) : PyInfo :=
  ⟨str n, str "1.0", str "s", none, cls, hp, none, none⟩

/-- Index response of the aggregate root package. -/
def respMain : PyResponse :=
  ⟨mkInfo "mainpkg" [clsApache] (some ghUrl), [str "1.0"], [], str ""⟩

/-- Index response of the provided component `suba`. -/
def respA : PyResponse :=
  ⟨mkInfo "suba" [clsApache] (some ghUrl), [str "1.0"], [wheelA], str ""⟩

/-- Index response of the provided component `subb`. -/
def respB : PyResponse :=
  ⟨mkInfo "subb" [clsApache] (some ghUrl), [str "1.0"], [wheelB], str ""⟩

/-- Index response of `pip` (only ever used as a make-dependency). -/
def respPip : PyResponse := ⟨mkInfo "pip" [] none, [str "1.0"], [], str ""⟩

/-- Index response of a package with no artifacts at all. -/
def respN : PyResponse := ⟨mkInfo "nourl" [] none, [str "1.0"], [], str ""⟩

/-- Trial-installation metadata with no requirements. -/
def metaOf (n : Str) : PyMetadata := ⟨n, str "1.0", str "s", none, [], []⟩

/-- The closed oracle environment: `mainpkg` is installed locally as
`python-mainpkg 1.0-1` and provides the two components `suba` and `subb`;
nothing else is installed; every version parses to `0`, rendered `1.0`, no
prereleases; license files fetch successfully from hosting services. -/
def envC3 : Env Nat :=
  { pyTags := tags0,
    versionParse := fun _ => 0,
    versionStr := fun _ => str "1.0",
    isPrerel := fun _ => false,
    fetch := fun n v =>
      if v ≠ str "" then none
      else if n = str "mainpkg" then some respMain
      else if n = str "suba" then some respA
      else if n = str "subb" then some respB
      else if n = str "pip" then some respPip
      else if n = str "nourl" then some respN
      else none,
    metaO := fun n _ => ⟨true, true, true, metaOf n⟩,
    qo := fun n =>
      if n = str "mainpkg" then [str "python-mainpkg", str "1.0-1"] else [],
    conflictsGit := fun _ => false,
    pkgfileParts := fun _ => [],
    pkgfileList := fun n =>
      if n = str "python-mainpkg" then [str "suba", str "subb"] else [],
    srcGlobI := fun _ => false,
    srcGlobPyx := fun _ => false,
    srcGlobC := fun _ => false,
    httpOk := fun _ => true,
    httpBody := fun _ => str "B",
    srcFile := fun _ _ => none }

/-- Index response of `old` when queried unpinned: its `version` field lags
behind its listed releases. -/
def respOld : PyResponse := ⟨⟨str "old", str "0.9", str "s", none, [], none, none, none⟩,
  [str "1.0"], [], str ""⟩

/-- Index response of `old` when re-queried pinned to the computed maximum. -/
def respNew : PyResponse := ⟨⟨str "old", str "1.0", str "s", none, [], none, none, none⟩,
  [str "1.0"], [], str ""⟩

/-- `envC3` extended with the `old` package whose unpinned response lags. -/
def envC8 : Env Nat :=
  { envC3 with fetch := fun n v =>
      if n = str "old" then
        if v = str "" then some respOld
        else if v = str "1.0" then some respNew
        else none
      else envC3.fetch n v }

/-- A hand-built reference whose index response lists no artifacts. -/
def refN : RefCore :=
  ⟨str "nourl", str "nourl", str "nourl", str "python-nourl", none, [], false, respN, 0⟩

/-- The resolution options used by the fixtures. -/
def optsC3 : ResolveOptions := ⟨false, str "00", [str "cython", str "swig"], ptypes0⟩

/-- The initial world: empty caches, zero counters. -/
def w0 : World := ⟨0, 0, 0, [], [], 0⟩


theorem firstUniqueAux_mem [DecidableEq α] (seen l : List α) (a : α) :
    a ∈ firstUniqueAux seen l ↔ a ∈ l ∧ a ∉ seen := by
  induction l generalizing seen with
  | nil => simp [firstUniqueAux]
  | cons x xs ih =>
    by_cases hx : x ∈ seen
    · rw [firstUniqueAux, if_pos hx, ih]
      constructor
      · rintro ⟨h1, h2⟩; exact ⟨List.mem_cons_of_mem _ h1, h2⟩
      · rintro ⟨h1, h2⟩
        rcases List.mem_cons.mp h1 with h | h
        · subst h; exact absurd hx h2
        · exact ⟨h, h2⟩
    · rw [firstUniqueAux, if_neg hx]
      simp only [List.mem_cons, ih]
      constructor
      · rintro (h | ⟨h1, h2⟩)
        · subst h; exact ⟨Or.inl rfl, hx⟩
        · exact ⟨Or.inr h1, fun hs => h2 (Or.inr hs)⟩
      · rintro ⟨h | h, h2⟩
        · exact Or.inl h
        · by_cases hax : a = x
          · exact Or.inl hax
          · exact Or.inr ⟨h, fun hs => by
              rcases hs with h' | h'
              · exact hax h'
              · exact h2 h'⟩

theorem firstUniqueAux_nodup [DecidableEq α] (seen l : List α) :
    (firstUniqueAux seen l).Nodup := by
  induction l generalizing seen with
  | nil => simp [firstUniqueAux]
  | cons x xs ih =>
    by_cases hx : x ∈ seen
    · rw [firstUniqueAux, if_pos hx]; exact ih seen
    · rw [firstUniqueAux, if_neg hx]
      refine List.nodup_cons.mpr ⟨?_, ih _⟩
      intro hmem
      exact ((firstUniqueAux_mem _ _ _).mp hmem).2 (List.mem_cons_self _ _)

/-- C10: the de-duplication helper `_unique` returns each distinct element
exactly once (no duplicates, same membership); a repeated element keeps the
position of its LAST occurrence, the output being exactly the reverse of
first-occurrence de-duplication applied to the reversed input, as on the
concrete example `_unique([a, b, a, c]) = [b, a, c]`. -/
theorem c10_unique_last_occurrence :
    (∀ (α : Type) [DecidableEq α] (l : List α),
      (pyUnique l).Nodup ∧ (∀ a, a ∈ pyUnique l ↔ a ∈ l) ∧
      pyUnique l = (firstUniqueAux [] l.reverse).reverse) ∧
    pyUnique [0, 1, 0, 2] = [1, 0, 2] := by
  constructor
  · intro α _ l
    refine ⟨?_, ?_, rfl⟩
    · exact List.nodup_reverse.mpr (firstUniqueAux_nodup _ _)
    · intro a
      simp [pyUnique, firstUniqueAux_mem]
  · decide

/-- C5: metadata extraction performs exactly one bounded retry — a failing
first trial installation is retried exactly once (two install attempts in
total, one otherwise); a successful retry appends the auxiliary library name
`numpy` exactly once to the returned runtime-dependency list; a failing
retry raises `PackagingError("Failed to obtain metadata for '<name>'.")`. -/
theorem c5_metadata_single_retry (name : Str) (o : MetaOracle) :
    (o.firstInstallOk = true → installAttempts o = 1) ∧
    (o.firstInstallOk = false → installAttempts o = 2) ∧
    (o.firstInstallOk = false → o.retryOk = true →
      getMetadataPure name o =
        .ok { o.meta with requires := o.meta.requires ++ [str "numpy"] } ∧
      ∀ m, getMetadataPure name o = .ok m →
        m.requires.count (str "numpy") = o.meta.requires.count (str "numpy") + 1) ∧
    (o.firstInstallOk = false → o.retryOk = false →
      getMetadataPure name o = .error (.packaging
        (str "Failed to obtain metadata for '" ++ name ++ str "'."))) := by
  refine ⟨fun h => ?_, fun h => ?_, fun h hr => ⟨?_, fun m hm => ?_⟩, fun h hr => ?_⟩
  · simp [installAttempts, h]
  · simp [installAttempts, h]
  · simp [getMetadataPure, h, hr]
  · simp [getMetadataPure, h, hr] at hm
    rw [← hm]
    simp [List.count_append]
  · simp [getMetadataPure, h, hr]

/-- Witness for C5 at a concrete oracle: first install fails, the numpy
retry succeeds, and numpy is appended exactly once. -/
theorem c5_metadata_single_retry_witness :
    installAttempts ⟨false, true, true, metaOf (str "pkg")⟩ = 2 ∧
    getMetadataPure (str "pkg") ⟨false, true, true, metaOf (str "pkg")⟩ =
      .ok { metaOf (str "pkg") with requires := [str "numpy"] } := by
  have h := c5_metadata_single_retry (str "pkg") ⟨false, true, true, metaOf (str "pkg")⟩
  exact ⟨h.2.1 rfl, (h.2.2.1 rfl rfl).1⟩

/-- C9: when artifact selection returns the empty list, `Package.__init__`
raises `PackagingError("No URL available for package '<name>'.")` and emits
no manifest (the world is unchanged, nothing else runs). -/
theorem c9_no_artifact_error (env : Env V) (fuel : Nat) (opts : ResolveOptions)
    (ref : RefCore) (w : World)
    (h : filterAndSortUrls env.pyTags opts.pkgtypes ref.wheel_name
      ref.info.info.version ref.info.urls = some []) :
    packageInit env fuel opts ref w =
      (.error (.packaging
        (str "No URL available for package '" ++ ref.pkgname ++ str "'.")), w) := by
  simp [packageInit, h]

/-- Witness for C9: a package whose index lists no artifacts fails with the
exact message. -/
theorem c9_no_artifact_error_witness :
    packageInit envC3 10 optsC3 refN w0 =
      (.error (.packaging
        (str "No URL available for package '" ++ refN.pkgname ++ str "'.")), w0) :=
  c9_no_artifact_error envC3 10 optsC3 refN w0 (by decide)


variable {α : Type}

theorem dropWhile_append_of_all {p : α → Bool} (xs ys : List α)
    (h : ∀ x ∈ xs, p x = true) :
    (xs ++ ys).dropWhile p = ys.dropWhile p := by
  induction xs with
  | nil => rfl
  | cons a as ih =>
    simp only [List.cons_append, List.dropWhile_cons]
    rw [if_pos (h a (List.mem_cons_self _ _))]
    exact ih fun x hx => h x (List.mem_cons_of_mem _ hx)

theorem takeWhile_append_of_all {p : α → Bool} (xs ys : List α)
    (h : ∀ x ∈ xs, p x = true) :
    (xs ++ ys).takeWhile p = xs ++ ys.takeWhile p := by
  induction xs with
  | nil => rfl
  | cons a as ih =>
    simp only [List.cons_append, List.takeWhile_cons]
    rw [if_pos (h a (List.mem_cons_self _ _))]
    rw [ih fun x hx => h x (List.mem_cons_of_mem _ hx)]

theorem not_mem_sep_append {c sep : Char} {p r : Str} (hc : c ≠ sep)
    (hp : c ∉ p) (hr : c ∉ r) : c ∉ p ++ sep :: r := by
  intro hm
  rcases List.mem_append.mp hm with h | h
  · exact hp h
  · rcases List.mem_cons.mp h with h | h
    · exact hc h
    · exact hr h

theorem contains_eq_false_of_not_mem {c : Char} {s : Str} (h : c ∉ s) :
    s.contains c = false := by
  rw [← Bool.not_eq_true]
  intro hmem
  exact h (List.elem_iff.mp hmem)

theorem splitLastChar_spec (c : Char) (p r : Str) (h : c ∉ r) :
    splitLastChar c (p ++ c :: r) = some (p, r) := by
  have hall : ∀ x ∈ r.reverse, (decide (x ≠ c)) = true := by
    intro x hx
    simp only [decide_eq_true_eq]
    intro e
    exact h (by rw [← e]; exact List.mem_reverse.mp hx)
  have hrev : (p ++ c :: r).reverse = r.reverse ++ c :: p.reverse := by
    simp
  unfold splitLastChar
  rw [hrev, dropWhile_append_of_all _ _ hall, takeWhile_append_of_all _ _ hall]
  simp [List.dropWhile_cons, List.takeWhile_cons]

theorem colonSplits_of_not_mem (s : Str) (h : ':' ∉ s) : colonSplits s = [] := by
  induction s with
  | nil => rfl
  | cons a as ih =>
    have ha : ¬(a = ':') := fun e => h (by rw [e]; exact List.mem_cons_self _ _)
    rw [colonSplits, if_neg ha, ih fun hm => h (List.mem_cons_of_mem _ hm)]
    rfl

theorem colonSplits_single (e t : Str) (he : ':' ∉ e) (ht : ':' ∉ t) :
    colonSplits (e ++ ':' :: t) = [(e, t)] := by
  induction e with
  | nil =>
    rw [List.nil_append, colonSplits, if_pos rfl, colonSplits_of_not_mem t ht]
    rfl
  | cons a as ih =>
    have ha : ¬(a = ':') := fun hEq => he (by rw [hEq]; exact List.mem_cons_self _ _)
    rw [List.cons_append, colonSplits, if_neg ha,
      ih fun hm => he (List.mem_cons_of_mem _ hm)]
    rfl

/-- C6: for every valid `(epoch, version, revision)` triple, rendering to the
canonical `epoch:version-revision` form (epoch omitted when empty) and
parsing back with `ArchVersion.parse`'s regular expression yields the same
triple: `parse(render(v)) = v`. -/
theorem c6_archversion_roundtrip (v : ArchVersion)
    (h1 : archFieldValid v.epoch) (h2 : archFieldValid v.pkgver)
    (h3 : archFieldValid v.pkgrel) :
    archVersionParse (archVersionRender v) = some v := by
  obtain ⟨e, p, r⟩ := v
  obtain ⟨he1, he2, he3⟩ := h1
  obtain ⟨hp1, hp2, hp3⟩ := h2
  obtain ⟨hr1, hr2, hr3⟩ := h3
  simp only at he1 he2 he3 hp1 hp2 hp3 hr1 hr2 hr3
  by_cases he : e = []
  · subst he
    have hrend : archVersionRender ⟨[], p, r⟩ = p ++ '-' :: r := by
      simp [archVersionRender]
    have hnomem : '\n' ∉ p ++ '-' :: r :=
      not_mem_sep_append (by decide) hp3 hr3
    have hcs : epochSplit (p ++ '-' :: r) = none := by
      rw [epochSplit, colonSplits_of_not_mem _ (not_mem_sep_append (by decide) hp1 hr1)]
      rfl
    rw [hrend, archVersionParse,
      if_neg (by rw [contains_eq_false_of_not_mem hnomem]; exact Bool.false_ne_true),
      hcs, splitLastChar_spec '-' p r hr2]
  · have hrend : archVersionRender ⟨e, p, r⟩ = e ++ ':' :: (p ++ '-' :: r) := by
      simp [archVersionRender, he]
    have hnomem : '\n' ∉ e ++ ':' :: (p ++ '-' :: r) :=
      not_mem_sep_append (by decide) he3
        (not_mem_sep_append (by decide) hp3 hr3)
    have hcs : epochSplit (e ++ ':' :: (p ++ '-' :: r)) = some (e, p ++ '-' :: r) := by
      rw [epochSplit,
        colonSplits_single _ _ he1 (not_mem_sep_append (by decide) hp1 hr1)]
      rw [List.filter_cons,
        if_pos (by
          show (p ++ '-' :: r).contains '-' = true
          exact List.elem_iff.mpr (List.mem_append.mpr (Or.inr (List.mem_cons_self _ _))))]
      rfl
    rw [hrend, archVersionParse,
      if_neg (by rw [contains_eq_false_of_not_mem hnomem]; exact Bool.false_ne_true),
      hcs]
    simp [splitLastChar_spec '-' p r hr2]

/-- Witness for C6 at the concrete triple `(1, 2.0, 3)`, rendered `1:2.0-3`. -/
theorem c6_archversion_roundtrip_witness :
    archFieldValid (str "1") ∧
    archVersionParse (archVersionRender ⟨str "1", str "2.0", str "3"⟩) =
      some ⟨str "1", str "2.0", str "3"⟩ :=
  ⟨by decide,
   c6_archversion_roundtrip ⟨str "1", str "2.0", str "3"⟩
     (by decide) (by decide) (by decide)⟩


theorem stableInsert_mem {α : Type} (le : α → α → Bool) (x : α) (l : List α) (a : α) :
    a ∈ stableInsert le x l ↔ a = x ∨ a ∈ l := by
  induction l with
  | nil => simp [stableInsert]
  | cons y ys ih =>
    by_cases h : le x y
    · simp [stableInsert, h]
    · simp only [stableInsert, if_neg h, List.mem_cons, ih]
      tauto

theorem stableSort_mem {α : Type} (le : α → α → Bool) (l : List α) (a : α) :
    a ∈ stableSort le l ↔ a ∈ l := by
  induction l with
  | nil => simp [stableSort]
  | cons x xs ih => simp [stableSort, stableInsert_mem, ih]

theorem stableInsert_key_sorted {β : Type} (x : β × Nat) (l : List (β × Nat))
    (h : List.Sorted (fun a b : β × Nat => a.2 ≤ b.2) l) :
    List.Sorted (fun a b : β × Nat => a.2 ≤ b.2)
      (stableInsert (fun a b => decide (a.2 ≤ b.2)) x l) := by
  induction l with
  | nil => simp [stableInsert]
  | cons y ys ih =>
    rw [List.sorted_cons] at h
    obtain ⟨hy, hys⟩ := h
    by_cases hxy : x.2 ≤ y.2
    · rw [stableInsert, if_pos (by simpa using hxy)]
      rw [List.sorted_cons]
      refine ⟨?_, List.sorted_cons.mpr ⟨hy, hys⟩⟩
      intro b hb
      rcases List.mem_cons.mp hb with h | h
      · subst h; exact hxy
      · exact le_trans hxy (hy b h)
    · rw [stableInsert, if_neg (by simpa using hxy)]
      rw [List.sorted_cons]
      refine ⟨?_, ih hys⟩
      intro b hb
      rcases (stableInsert_mem _ _ _ _).mp hb with h | h
      · subst h; exact le_of_not_le hxy
      · exact hy b h

theorem stableSort_key_sorted {β : Type} (l : List (β × Nat)) :
    List.Sorted (fun a b : β × Nat => a.2 ≤ b.2)
      (stableSort (fun a b => decide (a.2 ≤ b.2)) l) := by
  induction l with
  | nil => simp [stableSort]
  | cons x xs ih => exact stableInsert_key_sorted x _ ih

theorem stableInsert_key_filter {β : Type} (x : β × Nat) (l : List (β × Nat)) (k : Nat) :
    (stableInsert (fun a b => decide (a.2 ≤ b.2)) x l).filter (fun a => decide (a.2 = k)) =
      (x :: l).filter (fun a => decide (a.2 = k)) := by
  induction l with
  | nil => rfl
  | cons y ys ih =>
    by_cases hxy : x.2 ≤ y.2
    · rw [stableInsert, if_pos (by simpa using hxy)]
    · rw [stableInsert, if_neg (by simpa using hxy)]
      have hlt : y.2 < x.2 := lt_of_not_le hxy
      by_cases hyk : y.2 = k
      · have hxk : ¬(x.2 = k) := by omega
        simp [List.filter_cons, hyk, hxk, ih]
      · by_cases hxk : x.2 = k
        · simp [List.filter_cons, hyk, hxk, ih]
        · simp [List.filter_cons, hyk, hxk, ih]

theorem stableSort_key_filter {β : Type} (l : List (β × Nat)) (k : Nat) :
    (stableSort (fun a b => decide (a.2 ≤ b.2)) l).filter (fun a => decide (a.2 = k)) =
      l.filter (fun a => decide (a.2 = k)) := by
  induction l with
  | nil => rfl
  | cons x xs ih =>
    rw [stableSort, stableInsert_key_filter, List.filter_cons, List.filter_cons, ih]

/-- C7: artifact selection is a deterministic pure function; the surviving
artifacts are returned sorted ascending by the position of their preference
bucket in the preference order, artifacts in the same bucket position keep
their original index-listing order (the filtered sublist at each key is
unchanged by the sort), and repeated calls on the same inputs yield an
identical result. -/
theorem c7_selection_deterministic_stable (pyTags pkgtypes : List Str)
    (wheelName ver : Str) (urls : List PyUrl) (keyed : List (PyUrl × Nat))
    (h : collectUrls pyTags pkgtypes wheelName ver urls = some keyed) :
    filterAndSortUrls pyTags pkgtypes wheelName ver urls =
      some ((stableSort (fun a b => decide (a.2 ≤ b.2)) keyed).map Prod.fst) ∧
    List.Sorted (fun a b : PyUrl × Nat => a.2 ≤ b.2)
      (stableSort (fun a b => decide (a.2 ≤ b.2)) keyed) ∧
    (∀ k, (stableSort (fun a b => decide (a.2 ≤ b.2)) keyed).filter
        (fun a => decide (a.2 = k)) = keyed.filter (fun a => decide (a.2 = k))) ∧
    filterAndSortUrls pyTags pkgtypes wheelName ver urls =
      filterAndSortUrls pyTags pkgtypes wheelName ver urls := by
  refine ⟨?_, stableSort_key_sorted keyed, fun k => stableSort_key_filter keyed k, rfl⟩
  rw [filterAndSortUrls, h]
  rfl

/-- Witness for C7 at a concrete artifact list: an sdist listed before a
preferred wheel is sorted after it. -/
theorem c7_selection_deterministic_stable_witness :
    filterAndSortUrls tags0 ptypes0 (str "foo") (str "1.0") [sdFoo, wFoo] =
      some [wFoo, sdFoo] ∧
    List.Sorted (fun a b : PyUrl × Nat => a.2 ≤ b.2)
      (stableSort (fun a b => decide (a.2 ≤ b.2)) [(sdFoo, 1), (wFoo, 0)]) := by
  have h := c7_selection_deterministic_stable tags0 ptypes0 (str "foo") (str "1.0")
    [sdFoo, wFoo] [(sdFoo, 1), (wFoo, 0)] (by decide)
  refine ⟨?_, h.2.1⟩
  rw [h.1]
  decide

theorem collectUrls_wheel_matches (pyTags pkgtypes : List Str) (wheelName ver : Str) :
    ∀ (urls : List PyUrl) (keyed : List (PyUrl × Nat)),
      collectUrls pyTags pkgtypes wheelName ver urls = some keyed →
      ∀ u k, (u, k) ∈ keyed → u.packagetype = str "bdist_wheel" →
        ∃ wi, wheelInfoParse u.path = some wi ∧ wi.name = wheelName ∧ wi.version = ver := by
  intro urls
  induction urls with
  | nil =>
    intro keyed h u k hmem
    rw [collectUrls] at h
    injection h with h
    subst h
    exact absurd hmem (List.not_mem_nil _)
  | cons u rest ih =>
    intro keyed h u' k hmem hw
    rw [collectUrls] at h
    split at h
    · -- u is a wheel: the match on wheelInfoParse
      split at h
      · exact absurd h (by simp)
      · rename_i wi hparse
        split at h
        · exact ih keyed h u' k hmem hw
        · split at h
          · exact ih keyed h u' k hmem hw
          · rename_i order hord
            split at h
            · exact ih keyed h u' k hmem hw
            · rename_i hmis
              push_neg at hmis
              obtain ⟨keyed', hrest, hk⟩ := Option.map_eq_some'.mp h
              subst hk
              rcases List.mem_cons.mp hmem with hEq | hmem'
              · have hu : u' = u := congrArg Prod.fst hEq
                subst hu
                exact ⟨wi, hparse, hmis.1, hmis.2⟩
              · exact ih keyed' hrest u' k hmem' hw
    · split at h
      · -- u is an sdist
        rename_i hnw hsd
        split at h
        · exact ih keyed h u' k hmem hw
        · obtain ⟨keyed', hrest, hk⟩ := Option.map_eq_some'.mp h
          subst hk
          rcases List.mem_cons.mp hmem with hEq | hmem'
          · have hu : u' = u := congrArg Prod.fst hEq
            subst hu
            exact absurd hw hnw
          · exact ih keyed' hrest u' k hmem' hw
      · exact ih keyed h u' k hmem hw

/-- C1 (amended): a binary-bundle artifact whose parsed name or version
disagrees with the package identity being resolved is logged as suspicious
and then DISCARDED by the selection filter — every wheel in the returned
ordered artifact list parses to the resolved wheel name and version. -/
theorem c1_mismatched_wheel_discarded (pyTags pkgtypes : List Str)
    (wheelName ver : Str) (urls res : List PyUrl)
    (h : filterAndSortUrls pyTags pkgtypes wheelName ver urls = some res) :
    ∀ u ∈ res, u.packagetype = str "bdist_wheel" →
      ∃ wi, wheelInfoParse u.path = some wi ∧ wi.name = wheelName ∧ wi.version = ver := by
  intro u hu hw
  rw [filterAndSortUrls] at h
  obtain ⟨keyed, hc, hres⟩ := Option.map_eq_some'.mp h
  subst hres
  obtain ⟨⟨u2, k⟩, hpair, hfst⟩ := List.mem_map.mp hu
  have hu2 : u2 = u := hfst
  subst hu2
  have hkeyed : (u2, k) ∈ keyed := (stableSort_mem _ keyed _).mp hpair
  exact collectUrls_wheel_matches pyTags pkgtypes wheelName ver urls keyed hc u2 k
    hkeyed hw

/-- Counterexample to C1 as stated: a wheel that passes the interpreter-tag
and preference-bucket filters but whose parsed version `2.0` disagrees with
the resolved `foo 1.0` is NOT kept — the returned artifact list is empty. -/
theorem c1_mismatch_not_kept_cex :
    collectUrls tags0 ptypes0 (str "foo") (str "1.0") [wMis] = some [] ∧
    filterAndSortUrls tags0 ptypes0 (str "foo") (str "1.0") [wMis] = some [] ∧
    (∃ wi, wheelInfoParse wMis.path = some wi ∧ wi.python ∈ tags0 ∧
      (List.lookup wi.platform WHEEL_BUCKETS).bind (fun b => listIndex b ptypes0) =
        some 0 ∧ wi.name = str "foo" ∧ wi.version ≠ str "1.0") := by
  refine ⟨by decide, by decide,
    ⟨⟨str "foo", str "2.0", str "", str "py3", str "none", str "any"⟩,
     by decide, by decide, by decide, by decide, by decide⟩⟩

/-- Witness for C1's amended theorem on a concrete list containing a
mismatching wheel, an sdist and a matching wheel. -/
theorem c1_mismatched_wheel_discarded_witness :
    filterAndSortUrls tags0 ptypes0 (str "foo") (str "1.0") [wMis, sdFoo, wFoo] =
      some [wFoo, sdFoo] ∧
    (∃ wi, wheelInfoParse wFoo.path = some wi ∧ wi.name = str "foo" ∧
      wi.version = str "1.0") := by
  refine ⟨by decide, ?_⟩
  exact c1_mismatched_wheel_discarded tags0 ptypes0 (str "foo") (str "1.0")
    [wMis, sdFoo, wFoo] [wFoo, sdFoo] (by decide) wFoo (by decide) (by decide)

theorem pyMax_foldl_spec {W : Type} [LinearOrder W] :
    ∀ (xs : List W) (x : W),
      (xs.foldl (fun m v => if m < v then v else m) x) ∈ x :: xs ∧
      ∀ v ∈ x :: xs, v ≤ xs.foldl (fun m v => if m < v then v else m) x := by
  intro xs
  induction xs with
  | nil => intro x; exact ⟨List.mem_cons_self _ _, by simp⟩
  | cons y ys ih =>
    intro x
    rw [List.foldl_cons]
    obtain ⟨hmem, hub⟩ := ih (if x < y then y else x)
    constructor
    · rcases List.mem_cons.mp hmem with h | h
      · rw [h]
        by_cases hxy : x < y
        · simp [hxy]
        · simp [hxy]
      · exact List.mem_cons_of_mem _ (List.mem_cons_of_mem _ h)
    · intro v hv
      rcases List.mem_cons.mp hv with h | h
      · subst h
        have hxz : v ≤ if v < y then y else v := by
          by_cases hxy : v < y
          · simp [hxy, le_of_lt hxy]
          · simp [hxy]
        exact le_trans hxz (hub _ (List.mem_cons_self _ _))
      · rcases List.mem_cons.mp h with h | h
        · subst h
          have hyz : v ≤ if x < v then v else x := by
            by_cases hxy : x < v
            · simp [hxy]
            · simp [hxy, le_of_not_lt hxy]
          exact le_trans hyz (hub _ (List.mem_cons_self _ _))
        · exact hub v (List.mem_cons_of_mem _ h)

theorem pyMax_spec {W : Type} [LinearOrder W] (l : List W) (m : W)
    (h : pyMax l = some m) : m ∈ l ∧ ∀ v ∈ l, v ≤ m := by
  match l with
  | [] => exact absurd h (by simp [pyMax])
  | x :: xs =>
    rw [pyMax] at h
    injection h with h
    subst h
    exact pyMax_foldl_spec xs x

/-- C8: resolving an index-hosted name with no pinned version selects the
maximum of the prerelease-filtered parsed releases under the version type's
total order (never a lexical string comparison: the order is the abstract
`LinearOrder` on parsed versions) — the selected version is a member and an
upper bound of the filtered parses; when its rendering differs from the
index's self-reported `version` field, the client re-queries pinned to the
computed maximum and returns that re-query's result, and otherwise it
returns (and caches) the fetched response itself. -/
theorem c8_latest_version_requery (env : Env V) (fuel : Nat)
    (name : Str) (pre : Bool) (w : World) (raw : PyResponse) (m : V)
    (hgit : (str "git+").isPrefixOf name = false)
    (hmiss : List.lookup (name, pre, str "") w.pypiCache = none)
    (hfetch : env.fetch name (str "") = some raw)
    (hmax : pyMax ((raw.releases.map env.versionParse).filter
      (fun v => !(!pre && env.isPrerel v))) = some m) :
    (m ∈ (raw.releases.map env.versionParse).filter (fun v => !(!pre && env.isPrerel v)) ∧
     ∀ v ∈ (raw.releases.map env.versionParse).filter (fun v => !(!pre && env.isPrerel v)),
       v ≤ m) ∧
    (env.versionStr m ≠ raw.info.version →
      (getPypiInfoSt env (fuel + 1) name pre (str "") w).1 =
        (getPypiInfoSt env fuel name pre (env.versionStr m)
          { w with netCount := w.netCount + 1 }).1) ∧
    (env.versionStr m = raw.info.version →
      getPypiInfoSt env (fuel + 1) name pre (str "") w =
        (.ok { raw with pkgname_suffix := str "" },
         { w with netCount := w.netCount + 1,
                  pypiCache := ((name, pre, str ""), { raw with pkgname_suffix := str "" })
                    :: w.pypiCache })) := by
  refine ⟨pyMax_spec _ _ hmax, ?_, ?_⟩
  · intro hne
    rw [getPypiInfoSt, hmiss]
    rw [if_neg (by rw [hgit]; exact Bool.false_ne_true)]
    rw [hfetch]
    simp only [if_pos rfl, hmax, if_true]
    rw [if_pos hne]
    rcases hrec : getPypiInfoSt env fuel name pre (env.versionStr m)
      { w with netCount := w.netCount + 1 } with ⟨res2, w2⟩
    cases res2 with
    | ok r => simp
    | error e => simp
  · intro hEq
    rw [getPypiInfoSt, hmiss]
    rw [if_neg (by rw [hgit]; exact Bool.false_ne_true)]
    rw [hfetch]
    simp only [if_pos rfl, hmax, if_true]
    rw [if_neg (fun hn => hn hEq)]

/-- Witness for C8 on the `old` package whose index `version` field lags its
releases: the computed maximum is a member and the client re-queries pinned
to it. -/
theorem c8_latest_version_requery_witness :
    (0 : Nat) ∈ ((respOld.releases.map envC8.versionParse).filter
      (fun v => !(!false && envC8.isPrerel v))) ∧
    (getPypiInfoSt envC8 2 (str "old") false (str "") w0).1 =
      (getPypiInfoSt envC8 1 (str "old") false (envC8.versionStr 0)
        { w0 with netCount := w0.netCount + 1 }).1 := by
  have h := c8_latest_version_requery envC8 1 (str "old") false w0 respOld 0
    (by decide) (by decide) (by decide) (by decide)
  exact ⟨h.1.1, h.2.1 (by decide)⟩

theorem getPypiInfoSt_caches (env : Env V) :
    ∀ (fuel : Nat) (name : Str) (pre : Bool) (ver : Str) (w : World)
      (r : PyResponse) (w' : World),
      getPypiInfoSt env fuel name pre ver w = (.ok r, w') →
      List.lookup (name, pre, ver) w'.pypiCache = some r := by
  intro fuel
  induction fuel with
  | zero =>
    intro name pre ver w r w' h
    rw [getPypiInfoSt] at h
    simp at h
  | succ fuel ih =>
    intro name pre ver w r w' h
    rw [getPypiInfoSt] at h
    split at h
    · rename_i r0 hl
      rw [Prod.mk.injEq] at h
      obtain ⟨h1, h2⟩ := h
      injection h1 with h1
      subst h1
      subst h2
      exact hl
    · rename_i hl
      split at h
      · -- git+ branch
        split at h
        · simp at h
        · split at h
          · simp at h
          · rw [Prod.mk.injEq] at h
            obtain ⟨h1, h2⟩ := h
            injection h1 with h1
            subst h1
            subst h2
            simp [List.lookup]
      · -- index branch
        split at h
        · simp at h
        · rename_i raw hfetch
          dsimp only at h
          split at h
          · -- unpinned: maximum computation
            split at h
            · simp at h
            · rename_i m hmax
              split at h
              · -- re-query pinned to the maximum
                split at h
                · rename_i r2 w2 hrec
                  rw [Prod.mk.injEq] at h
                  obtain ⟨h1, h2⟩ := h
                  injection h1 with h1
                  subst h1
                  subst h2
                  simp [List.lookup]
                · simp at h
              · rw [Prod.mk.injEq] at h
                obtain ⟨h1, h2⟩ := h
                injection h1 with h1
                subst h1
                subst h2
                simp [List.lookup]
          · rw [Prod.mk.injEq] at h
            obtain ⟨h1, h2⟩ := h
            injection h1 with h1
            subst h1
            subst h2
            simp [List.lookup]

theorem findInstalledPure_count_pos (env : Env V) (p : Str) (x : Except PyErr (Option (Str × ArchVersion))) (n : Nat)
    (h : findInstalledPure env p = (x, n)) : 1 ≤ n := by
  rw [findInstalledPure] at h
  split at h <;> try (injection h with h1 h2; omega)
  · split at h
    · split at h
      · split at h <;> (injection h with h1 h2; omega)
      · injection h with h1 h2; omega
    · split at h <;> (injection h with h1 h2; omega)

theorem resolveLocal_count_pos (env : Env V) (resp : PyResponse)
    (x : Except PyErr (Str × Option ArchVersion × List Str × Bool)) (n : Nat)
    (h : resolveLocal env resp false = (x, n)) : 1 ≤ n := by
  rw [resolveLocal] at h
  simp only [Bool.false_eq_true, if_false] at h
  split at h
  · rename_i e n0 hfi
    injection h with h1 h2
    subst h2
    exact findInstalledPure_count_pos env _ _ _ hfi
  · injection h with h1 h2; omega
  · split at h
    · split at h <;> (injection h with h1 h2; omega)
    · injection h with h1 h2; omega

/-- C2 (amended): the index query of `PackageRef` construction is memoized —
resolving the same origin a second time within one run performs no further
network fetch or trial installation and returns a `PackageRef` equal to the
first in every field; but the construction itself is not memoized: the
second resolution re-runs at least one local-state shell query and returns a
fresh (distinct-identity) instance, not the first one. -/
theorem c2_memoized_fetch_fresh_instance (env : Env V) (fuel : Nat) (name : Str)
    (pre : Bool) (w w1 : World) (r1 : RefCore)
    (h : packageRefNew env fuel name pre false w = (.ok r1, w1)) :
    ∃ n, 1 ≤ n ∧
      packageRefNew env fuel name pre false w1 =
        (.ok { r1 with instId := w1.nextId },
         { w1 with localCount := w1.localCount + n, nextId := w1.nextId + 1 }) ∧
      ({ w1 with localCount := w1.localCount + n,
                 nextId := w1.nextId + 1 }).netCount = w1.netCount ∧
      ({ w1 with localCount := w1.localCount + n,
                 nextId := w1.nextId + 1 }).trialCount = w1.trialCount ∧
      ({ r1 with instId := w1.nextId }).instId ≠ r1.instId := by
  match hfuel : fuel with
  | 0 =>
    rw [packageRefNew, getPypiInfoSt] at h
    simp at h
  | f + 1 =>
    rw [packageRefNew] at h
    split at h
    · simp at h
    · rename_i resp wg hg
      split at h
      · simp at h
      · rename_i pkg av packaged ex n hres
        rw [Prod.mk.injEq] at h
        obtain ⟨h1, h2⟩ := h
        injection h1 with h1
        have hcache : List.lookup (name, pre, str "") w1.pypiCache = some resp := by
          have hc := getPypiInfoSt_caches env (f + 1) name pre (str "") w resp wg hg
          rw [← h2]
          exact hc
        have hsecond : getPypiInfoSt env (f + 1) name pre (str "") w1 = (.ok resp, w1) := by
          rw [getPypiInfoSt, hcache]
        refine ⟨n, resolveLocal_count_pos env resp _ _ hres, ?_, rfl, rfl, ?_⟩
        · rw [packageRefNew, hsecond]
          simp only [hres]
          rw [← h1]
        · rw [← h1, ← h2]
          simp

/-- Counterexample to C2 as stated: resolving the origin `suba` twice in one
run repeats the local-state shell work (the local query counter goes from 2
to 4) and returns a second, distinct instance, not the identical one. -/
theorem c2_construction_not_memoized_cex :
    ∃ r1 w1 r2 w2,
      packageRefNew envC3 10 (str "suba") false false w0 = (.ok r1, w1) ∧
      packageRefNew envC3 10 (str "suba") false false w1 = (.ok r2, w2) ∧
      w1.localCount = 2 ∧ w2.localCount = 4 ∧ w1.netCount = 1 ∧ w2.netCount = 1 ∧
      r1.instId ≠ r2.instId := by
  refine ⟨_, _, _, _, rfl, rfl, ?_, ?_, ?_, ?_, ?_⟩ <;> decide

/-- Witness for C2's amended theorem at the concrete origin `suba`. -/
theorem c2_memoized_fetch_fresh_instance_witness :
    ∃ (r1 : RefCore) (w1 : World) (n : Nat), 1 ≤ n ∧
      packageRefNew envC3 10 (str "suba") false false w0 = (.ok r1, w1) ∧
      packageRefNew envC3 10 (str "suba") false false w1 =
        (.ok { r1 with instId := w1.nextId },
         { w1 with localCount := w1.localCount + n, nextId := w1.nextId + 1 }) ∧
      ({ r1 with instId := w1.nextId }).instId ≠ r1.instId := by
  have h : packageRefNew envC3 10 (str "suba") false false w0 = (.ok _, _) := rfl
  obtain ⟨n, hn, heq, _, _, hni⟩ :=
    c2_memoized_fetch_fresh_instance envC3 10 (str "suba") false w0 _ _ h
  exact ⟨_, _, n, hn, h, heq, hni⟩

/-- C4: license classification is total and matches the fixed tables — a
classifier whose license segment (the last ` :: ` component, which is what
the source both looks up and passes through) is a key of the merged tables
contributes its fixed normalized id; an absent segment contributes the
verbatim `custom:<segment>`; with no license classifiers the free-text field
is wrapped as `custom:<field>` unless it is the `None`/`"UNKNOWN"` sentinel,
in which case the result is exactly `["custom:unknown"]`; the result is
never empty. -/
theorem c4_license_classification_total (info : PyInfo) :
    (∀ c ∈ licenseClasses info.classifiers,
      (∀ v, List.lookup ((strSplitOn (str " :: ") c).getLastD [])
          (TROVE_COMMON_LICENSES ++ TROVE_SPECIAL_LICENSES) = some v →
        classifyOne c = v ∧ v ∈ findLicensesPure info) ∧
      (List.lookup ((strSplitOn (str " :: ") c).getLastD [])
          (TROVE_COMMON_LICENSES ++ TROVE_SPECIAL_LICENSES) = none →
        classifyOne c = str "custom:" ++ (strSplitOn (str " :: ") c).getLastD [] ∧
        (str "custom:" ++ (strSplitOn (str " :: ") c).getLastD []) ∈
          findLicensesPure info)) ∧
    (licenseClasses info.classifiers = [] →
      ∀ l, info.license = some l → l ≠ str "UNKNOWN" →
        findLicensesPure info = [str "custom:" ++ l]) ∧
    (licenseClasses info.classifiers = [] →
      (info.license = none ∨ info.license = some (str "UNKNOWN")) →
      findLicensesPure info = [str "custom:unknown"]) ∧
    findLicensesPure info ≠ [] := by
  refine ⟨?_, ?_, ?_, ?_⟩
  · intro c hc
    have hne : licenseClasses info.classifiers ≠ [] := by
      intro h0
      rw [h0] at hc
      exact absurd hc (List.not_mem_nil _)
    have hfl : findLicensesPure info = (licenseClasses info.classifiers).map classifyOne := by
      rw [findLicensesPure, if_pos hne]
    constructor
    · intro v hv
      have hcl : classifyOne c = v := by
        rw [classifyOne, hv]
      exact ⟨hcl, hfl ▸ List.mem_map.mpr ⟨c, hc, hcl⟩⟩
    · intro hv
      have hcl : classifyOne c = str "custom:" ++ (strSplitOn (str " :: ") c).getLastD [] := by
        rw [classifyOne, hv]
      exact ⟨hcl, hfl ▸ List.mem_map.mpr ⟨c, hc, hcl⟩⟩
  · intro h l hl hne
    rw [findLicensesPure, if_neg (fun hn => hn h), hl]
    simp [hne]
  · intro h hl
    rcases hl with hl | hl <;> rw [findLicensesPure, if_neg (fun hn => hn h), hl] <;> simp
  · rw [findLicensesPure]
    by_cases h : licenseClasses info.classifiers = []
    · rw [if_neg (fun hn => hn h)]
      cases hli : info.license with
      | none => simp
      | some l =>
        by_cases hu : l = str "UNKNOWN" <;> simp [hu]
    · rw [if_pos h]
      intro hmap
      exact h (List.map_eq_nil_iff.mp hmap)

/-- Witness for C4: the MIT classifier maps to `MIT`, and missing license
data yields exactly `custom:unknown`. -/
theorem c4_license_classification_total_witness :
    (str "MIT") ∈
      findLicensesPure (mkInfo "x" [str "License :: OSI Approved :: MIT License"] none) ∧
    findLicensesPure (mkInfo "y" [] none) = [str "custom:unknown"] := by
  have h1 := c4_license_classification_total
    (mkInfo "x" [str "License :: OSI Approved :: MIT License"] none)
  have h2 := c4_license_classification_total (mkInfo "y" [] none)
  refine ⟨?_, ?_⟩
  · exact ((h1.1 (str "License :: OSI Approved :: MIT License") (by decide)).1
      (str "MIT") (by decide)).2
  · exact h2.2.2.1 (by decide) (Or.inl rfl)

theorem packageRefNew_sub_prefix (env : Env V) (fuel : Nat) (n : Str) (pre : Bool)
    (w : World) (r : RefCore) (w' : World)
    (h : packageRefNew env fuel n pre true w = (.ok r, w')) :
    (str "python--").isPrefixOf r.pkgname = true := by
  rw [packageRefNew] at h
  split at h
  · simp at h
  · rename_i resp wg hg
    have hres : resolveLocal env resp true =
        (.ok (str "python-" ++ str "-" ++ strLower resp.info.name ++ resp.pkgname_suffix,
          none, [], false), 0) := rfl
    rw [hres] at h
    rw [Prod.mk.injEq] at h
    obtain ⟨h1, h2⟩ := h
    injection h1 with h1
    rw [← h1]
    have hsplit : str "python-" ++ str "-" ++ strLower resp.info.name ++ resp.pkgname_suffix =
        str "python--" ++ (strLower resp.info.name ++ resp.pkgname_suffix) := by
      simp [str]
    show (str "python--").isPrefixOf
      (str "python-" ++ str "-" ++ strLower resp.info.name ++ resp.pkgname_suffix) = true
    rw [hsplit]
    rw [List.isPrefixOf_iff_prefix]
    exact List.prefix_append _ _

theorem packageInit_ok_fields (env : Env V) (fuel : Nat) (opts : ResolveOptions)
    (ref : RefCore) (w : World) (m : PkgManifest) (w' : World)
    (h : packageInit env fuel opts ref w = (.ok m, w')) :
    m.pkgname = ref.pkgname ∧ m.conflicts = [] := by
  rw [packageInit] at h
  dsimp only at h
  split at h
  · simp at h
  · split at h
    · simp at h
    · split at h
      · simp at h
      · split at h
        · simp at h
        · split at h
          · simp at h
          · split at h
            · simp at h
            · split at h
              · simp at h
              · rw [Prod.mk.injEq] at h
                obtain ⟨h1, h2⟩ := h
                injection h1 with h1
                rw [← h1]
                exact ⟨rfl, rfl⟩

theorem buildSubPackages_spec (env : Env V) (fuel : Nat) (opts : ResolveOptions) :
    ∀ (names : List Str) (w : World) (subs : List PkgManifest) (w' : World),
      buildSubPackages env fuel opts names w = (.ok subs, w') →
      subs.length = names.length ∧
      ∀ p ∈ subs, (str "python--").isPrefixOf p.pkgname = true := by
  intro names
  induction names with
  | nil =>
    intro w subs w' h
    rw [buildSubPackages] at h
    rw [Prod.mk.injEq] at h
    obtain ⟨h1, h2⟩ := h
    injection h1 with h1
    rw [← h1]
    exact ⟨rfl, by intro p hp; exact absurd hp (List.not_mem_nil _)⟩
  | cons n ns ih =>
    intro w subs w' h
    rw [buildSubPackages] at h
    split at h
    · simp at h
    · rename_i r w1 hr
      split at h
      · simp at h
      · rename_i p w2 hp
        split at h
        · simp at h
        · rename_i ps w3 hps
          rw [Prod.mk.injEq] at h
          obtain ⟨h1, h2⟩ := h
          injection h1 with h1
          rw [← h1]
          obtain ⟨hlen, hall⟩ := ih w2 ps w3 hps
          refine ⟨by simp [hlen], ?_⟩
          intro q hq
          rcases List.mem_cons.mp hq with hEq | hq'
          · subst hEq
            have hpk := (packageInit_ok_fields env fuel opts r w1 q w2 hp).1
            rw [hpk]
            exact packageRefNew_sub_prefix env fuel n false w r w1 hr
          · exact hall q hq'

/-- C3: a reference whose local installation provides more than one
index-level component name resolves as a MetaAggregate manifest — one
standalone, `python--` namespace-prefixed sub-manifest per provided name,
each patched after construction so its `conflicts` field is the strict
two-sided bound `<name><version` and `<name>>version` against the
aggregate's own name and its  `.99`-revision-bumped version; with at most
one provided name a Standard manifest (or a failure) is produced instead. -/
theorem c3_meta_aggregate_conflicts (env : Env V) (fuel : Nat)
    (opts : ResolveOptions) (name : Str) (w : World) :
    (∀ mm w2, dispatchPackageBuilder env fuel opts name w = (.ok (.meta mm), w2) →
      ∃ ref w1 av, packageRefNew env fuel name opts.pre false w = (.ok ref, w1) ∧
        1 < ref.arch_packaged.length ∧ ref.arch_version = some av ∧
        mm.pkgname = ref.pkgname ∧
        mm.pkgrel = av.pkgrel ++ str ".99" ∧
        mm.depends.length = ref.arch_packaged.length ∧
        (∀ p ∈ mm.depends, (str "python--").isPrefixOf p.pkgname = true ∧
          p.conflicts =
            [ref.pkgname ++ '<' ::
               archVersionRender ⟨av.epoch, av.pkgver, av.pkgrel ++ str ".99"⟩,
             ref.pkgname ++ '>' ::
               archVersionRender ⟨av.epoch, av.pkgver, av.pkgrel ++ str ".99"⟩])) ∧
    (∀ ref w1, packageRefNew env fuel name opts.pre false w = (.ok ref, w1) →
      ref.arch_packaged.length ≤ 1 →
      ∀ res w2, dispatchPackageBuilder env fuel opts name w = (res, w2) →
        (∃ pm, res = .ok (.std pm)) ∨ (∃ e, res = .error e)) := by
  constructor
  · intro mm w2 h
    rw [dispatchPackageBuilder] at h
    split at h
    · simp at h
    · rename_i ref w1 href
      split at h
      · rename_i hle
        split at h
        · simp at h
        · simp at h
      · rename_i hgt
        split at h
        · simp at h
        · rename_i m w2' hmeta
          rw [Prod.mk.injEq] at h
          obtain ⟨h1, h2⟩ := h
          injection h1 with h1
          injection h1 with h1
          rw [metaPackageInit] at hmeta
          split at hmeta
          · simp at hmeta
          · rename_i subs w1' hsubs
            split at hmeta
            · simp at hmeta
            · rename_i av hav
              rw [Prod.mk.injEq] at hmeta
              obtain ⟨hm1, hm2⟩ := hmeta
              injection hm1 with hm1
              obtain ⟨hlen, hall⟩ := buildSubPackages_spec env fuel opts
                ref.arch_packaged w1 subs w1' hsubs
              refine ⟨ref, w1, av, href, by omega, hav, ?_, ?_, ?_, ?_⟩
              · rw [← h1, ← hm1]
              · rw [← h1, ← hm1]
              · rw [← h1, ← hm1]
                simp [hlen]
              · intro p hp
                rw [← h1, ← hm1] at hp
                simp only [List.mem_map] at hp
                obtain ⟨q, hq, hpq⟩ := hp
                rw [← hpq]
                exact ⟨hall q hq, rfl⟩
  · intro ref w1 href hle res w2 h
    rw [dispatchPackageBuilder, href] at h
    simp only [if_pos hle] at h
    rcases hpi : packageInit env fuel opts ref w1 with ⟨pres, pw⟩
    rw [hpi] at h
    cases pres with
    | ok m =>
      simp only at h
      rw [Prod.mk.injEq] at h
      exact Or.inl ⟨m, h.1.symm⟩
    | error e =>
      simp only at h
      rw [Prod.mk.injEq] at h
      exact Or.inr ⟨e, h.1.symm⟩

/-- Witness for C3: in the concrete environment the locally installed
`python-mainpkg 1.0-1` provides `suba` and `subb`, so dispatch produces a
MetaAggregate whose two namespace-prefixed sub-manifests carry the strict
two-sided conflict bound against `python-mainpkg 1.0-1.99`. -/
theorem c3_meta_aggregate_conflicts_witness :
    ∃ mm w2,
      dispatchPackageBuilder envC3 10 optsC3 (str "mainpkg") w0 = (.ok (.meta mm), w2) ∧
      mm.pkgname = str "python-mainpkg" ∧
      mm.depends.length = 2 ∧
      ∀ p ∈ mm.depends, (str "python--").isPrefixOf p.pkgname = true ∧
        p.conflicts = [str "python-mainpkg<1.0-1.99", str "python-mainpkg>1.0-1.99"] := by
  have hd : dispatchPackageBuilder envC3 10 optsC3 (str "mainpkg") w0 =
      (.ok (.meta _), _) := rfl
  obtain ⟨ref, w1, av, href, hlen, hav, hpn, hrel, hdeplen, hdeps⟩ :=
    (c3_meta_aggregate_conflicts envC3 10 optsC3 (str "mainpkg") w0).1 _ _ hd
  have hcomp : packageRefNew envC3 10 (str "mainpkg") optsC3.pre false w0 =
      (.ok _, _) := rfl
  have heq := href.symm.trans hcomp
  rw [Prod.mk.injEq] at heq
  obtain ⟨he1, he2⟩ := heq
  injection he1 with he1
  subst he1
  have hav2 : some av = some (⟨str "", str "1.0", str "1"⟩ : ArchVersion) :=
    hav.symm.trans (by decide)
  injection hav2 with hav2
  subst hav2
  refine ⟨_, _, hd, ?_, ?_, ?_⟩
  · rw [hpn]
    decide
  · rw [hdeplen]
    decide
  · intro p hp
    obtain ⟨hpre, hconf⟩ := hdeps p hp
    refine ⟨hpre, ?_⟩
    rw [hconf]
    decide

end P2P
